import Mathlib

/-
Verification of the `kanten` log-list widget
(src/kanten_logs/src/components/log_list/mod.rs).

The Rust source is shallowly embedded below.  Machine integers are
modelled as `Nat`; release-build semantics are used for arithmetic:
`u16` casts and additions that can realistically wrap carry an explicit
`% 2^16`, the one reachable `usize` wrapping subtraction
(`items.len() - 1` in `next_if_exist`) is modelled by `wsub64`, and
slice indexing out of bounds (a panic in any build) makes the embedded
function return `none`.  Plain `Nat` addition is used where a `usize`
overflow would require amounts of memory a real process cannot hold
(sums of line counts of allocated vectors).
-/

def wsub16 (a b : Nat) : Nat := (a + 2 ^ 16 - b) % 2 ^ 16

def wsub64 (a b : Nat) : Nat := (a + 2 ^ 64 - b) % 2 ^ 64

def satAdd64 (a b : Nat) : Nat := min (a + b) (2 ^ 64 - 1)

/-- Modelled from the spec: terminal styles (the external `tui::style::Style`
of §6) are reduced to the optional foreground / background colours; colours
are numbered.  Only `patch` (later layer wins where it is set) is needed. -/
structure Style where
  fg : Option Nat
  bg : Option Nat
deriving DecidableEq

def Style.default : Style := ⟨none, none⟩

def Style.patch (s o : Style) : Style :=
  ⟨match o.fg with | some c => some c | none => s.fg,
   match o.bg with | some c => some c | none => s.bg⟩

/-- The target rectangle (`tui::layout::Rect`): (x, y, width, height) in
character cells, `u16` fields modelled as `Nat`. -/
structure Rect where
  x : Nat
  y : Nat
  width : Nat
  height : Nat
deriving DecidableEq

def Rect.left (r : Rect) : Nat := r.x

def Rect.top (r : Rect) : Nat := r.y

def Rect.bottom (r : Rect) : Nat := r.y + r.height

/-- Modelled from the spec: one cell of the external output buffer (§6),
a symbol plus a style. -/
structure Cell where
  symbol : Char
  style : Style
deriving DecidableEq

def Cell.default : Cell := ⟨' ', Style.default⟩

/-- One styled text fragment of a display line (`tui::text::Span`). -/
structure Span where
  content : List Char
  style : Style
deriving DecidableEq

/-- Modelled from the spec: the external output cell buffer of §6, owning a
rectangle of cells stored row-major. -/
structure Buffer where
  area : Rect
  cells : List Cell
deriving DecidableEq

/-- Writes one cell of the buffer through `f`; writes addressed outside the
buffer's rectangle are dropped. -/
def Buffer.setCell (b : Buffer) (x y : Nat) (f : Cell → Cell) : Buffer :=
  if b.area.x ≤ x ∧ x < b.area.x + b.area.width ∧
      b.area.y ≤ y ∧ y < b.area.y + b.area.height then
    let idx := (y - b.area.y) * b.area.width + (x - b.area.x)
    { b with cells := b.cells.set idx (f (b.cells.getD idx Cell.default)) }
  else b

/-- Modelled from the spec: §6 (a), filling a sub-rectangle with a style;
each cell's style is patched with the given style. -/
def Buffer.setStyle (b : Buffer) (r : Rect) (s : Style) : Buffer :=
  (List.range r.height).foldl
    (fun b' dy =>
      (List.range r.width).foldl
        (fun b'' dx =>
          b''.setCell (r.x + dx) (r.y + dy)
            (fun c => { c with style := c.style.patch s }))
        b')
    b

/-- Modelled from the spec: §6 (b), writing a sequence of styled spans at a
given row/column clipped to a maximum width. -/
def Buffer.setSpans (b : Buffer) (x y : Nat) (line : List Span) (maxW : Nat) :
    Buffer :=
  let chars : List (Char × Style) :=
    line.foldr (fun sp acc => sp.content.map (fun ch => (ch, sp.style)) ++ acc) []
  ((chars.take maxW).enum).foldl
    (fun b' p =>
      b'.setCell (x + p.1) y (fun c => ⟨p.2.1, c.style.patch p.2.2⟩))
    b

/-
LineComposer, modelled from the spec.  The repository file
`src/kanten_logs/src/components/log_list/line_builder.rs` (module
`line_builder`, providing `LineBuilder::run_composer`) is not present under
`src/`; only its caller `mod.rs` is.  The functions below follow §4.1 of the
spec: split on explicit line breaks, split each paragraph into words, greedy
word-wrap at the given width with single hard-broken over-long words, then
layer highlight spans for the query on top without changing the text.
-/

/-- Modelled from the spec: splits on a separator character, keeping empty
segments (an explicit line break between two breaks yields an empty line). -/
def splitOnChar (sep : Char) : List Char → List (List Char)
  | [] => [[]]
  | c :: cs =>
    if c = sep then [] :: splitOnChar sep cs
    else
      match splitOnChar sep cs with
      | [] => [[c]]
      | p :: ps => (c :: p) :: ps

/-- Modelled from the spec: word splitting; empty tokens between consecutive
spaces are dropped. -/
def splitWords (cs : List Char) : List (List Char) :=
  (splitOnChar ' ' cs).filter (fun wrd => wrd ≠ [])

/-- Modelled from the spec: hard-breaks a word into chunks of at most `w`
characters; `k` is the room left on the current chunk and `acc` the current
chunk reversed. -/
def chunksGo (w : Nat) : List Char → Nat → List Char → List (List Char)
  | [], _, acc => [acc.reverse]
  | c :: cs, 0, acc => acc.reverse :: chunksGo w cs (w - 1) [c]
  | c :: cs, k + 1, acc => chunksGo w cs k (c :: acc)

/-- Modelled from the spec: a single word longer than the width is hard-broken
at the width boundary. -/
def chunksW (w : Nat) (wrd : List Char) : List (List Char) :=
  chunksGo w wrd w []

/-- Modelled from the spec: greedy word packing.  Words are packed onto the
current line while the next word (plus one separating space) still fits;
otherwise the line is flushed and the word starts a new line, hard-broken
when longer than the width.  An empty word list yields exactly one line. -/
def greedyPack (w : Nat) : List (List Char) → List Char → List (List Char)
  | [], cur => [cur]
  | wrd :: rest, cur =>
    if cur = [] then
      let cks := chunksW w wrd
      cks.dropLast ++ greedyPack w rest (cks.getLastD [])
    else if cur.length + 1 + wrd.length ≤ w then
      greedyPack w rest (cur ++ ' ' :: wrd)
    else
      cur :: (let cks := chunksW w wrd
              cks.dropLast ++ greedyPack w rest (cks.getLastD []))

/-- Modelled from the spec: wraps raw text at the given width; explicit line
breaks are preserved as forced boundaries, empty text yields one empty line. -/
def wrapText (cs : List Char) (w : Nat) : List (List Char) :=
  (splitOnChar '\n' cs).foldr (fun para acc => greedyPack w (splitWords para) [] ++ acc) []

/-- Modelled from the spec: the style layered on top of query matches. -/
def highlightStyle : Style := ⟨some 3, none⟩

def matchHere : List Char → List Char → Bool
  | [], _ => true
  | _ :: _, [] => false
  | a :: as_, b :: bs => a = b && matchHere as_ bs

/-- Modelled from the spec: splits one wrapped line into spans at the
case-sensitive occurrences of the (non-empty) query; the concatenation of
the spans' text equals the line.  `fuel` bounds the recursion and is given
as the line length plus one, which is never exhausted since every step
consumes at least one character. -/
def hlGo (q : List Char) : Nat → List Char → List Char → List Span
  | 0, s, acc => if (acc.reverse ++ s) = [] then [] else [⟨acc.reverse ++ s, Style.default⟩]
  | fuel + 1, s, acc =>
    match s with
    | [] => if acc = [] then [] else [⟨acc.reverse, Style.default⟩]
    | c :: rest =>
      if matchHere q (c :: rest) then
        (if acc = [] then [] else [⟨acc.reverse, Style.default⟩]) ++
          ⟨q, highlightStyle⟩ :: hlGo q fuel ((c :: rest).drop q.length) []
      else hlGo q fuel rest (c :: acc)

/-- Modelled from the spec: one wrapped line as styled spans; with an empty
query the line is a single base-styled span. -/
def highlightLine (q : List Char) (line : List Char) : List Span :=
  if q = [] then [⟨line, Style.default⟩]
  else hlGo q (line.length + 1) line []

/-- Modelled from the spec: `LineBuilder::run_composer` — wraps the text at
the width and layers highlight spans for the query on each line.  The line
count is decided by the wrap alone. -/
def runComposer (text : String) (w : Nat) (query : String) : List (List Span) :=
  (wrapText text.data w).map (highlightLine query.data)

/-
The widget itself: data model, state, navigation, key handling and the
stateful render, embedded from src/kanten_logs/src/components/log_list/mod.rs.
-/

/-- One log item (`LogListItem`): immutable content plus a base style.  The
`line_builder: LineBuilder` field of the source is a stateless composer
handle and carries no data. -/
structure LogListItem where
  content : String
  style : Style
deriving DecidableEq

def LogListItem.new (content : String) : LogListItem :=
  ⟨content, Style.default⟩

/-- `LogListItem::height`: the number of display lines `run_composer`
produces for the content at the given width with the empty query. -/
def LogListItem.height (it : LogListItem) (w : Nat) : Nat :=
  (runComposer it.content w "").length

/-- `LogListState`: scroll offset, optional selection, focus flag and the
active search query. -/
structure LogListState where
  offset : Nat
  selected : Option Nat
  focused : Bool
  find_text : String
deriving DecidableEq

def LogListState.default : LogListState := ⟨0, none, false, ""⟩

/-- `LogListState::select`: stores the index; clearing the selection also
resets the offset to 0. -/
def LogListState.select (s : LogListState) (index : Option Nat) : LogListState :=
  let s' := { s with selected := index }
  if index.isNone then { s' with offset := 0 } else s'

/-- `LogListModel`: the item collection plus one state. -/
structure LogListModel where
  state : LogListState
  items : List LogListItem
deriving DecidableEq

/-- `LogListModel::new`: default state with the selection set to item 0. -/
def LogListModel.new : LogListModel :=
  ⟨LogListState.default.select (some 0), []⟩

def LogListModel.setFindText (m : LogListModel) (t : String) : LogListModel :=
  { m with state := { m.state with find_text := t } }

def LogListModel.push (m : LogListModel) (item : LogListItem) : LogListModel :=
  { m with items := m.items ++ [item] }

/-- `LogListModel::clear`: empties the items, resets the offset and selects
index 0. -/
def LogListModel.clear (m : LogListModel) : LogListModel :=
  { m with items := [],
           state := { m.state with offset := 0, selected := some 0 } }

/-- `LogListModel::next_if_exist`.  The guard is `i < self.items.len() - 1`
with no emptiness check: on release builds `0 - 1` on `usize` wraps, which
`wsub64` models (debug builds panic on the same subtraction). -/
def LogListModel.nextIfExist (m : LogListModel) : LogListModel :=
  match m.state.selected with
  | some i =>
    if i < wsub64 m.items.length 1 then
      { m with state := m.state.select (some (i + 1)) }
    else m
  | none => m

/-- `LogListModel::previous_if_exist`. -/
def LogListModel.previousIfExist (m : LogListModel) : LogListModel :=
  match m.state.selected with
  | some i =>
    if 0 < i then { m with state := m.state.select (some (i - 1)) } else m
  | none => m

def LogListModel.unselect (m : LogListModel) : LogListModel :=
  { m with state := m.state.select none }

def LogListModel.focus (m : LogListModel) : LogListModel :=
  { m with state := { m.state with focused := true } }

def LogListModel.blur (m : LogListModel) : LogListModel :=
  { m with state := { m.state with focused := false } }

/-- The key codes of the external input events (`crossterm::event::KeyCode`). -/
inductive KeyCode where
  | backspace | enter | left | right | up | down
  | home | endKey | pageUp | pageDown | tab | backTab
  | delete | insert | null | esc
  | f (n : Nat)
  | char (c : Char)
deriving DecidableEq

/-- The modifier bitset (`crossterm::event::KeyModifiers`): SHIFT = 1,
CONTROL = 2, ALT = 4, NONE = 0. -/
structure KeyModifiers where
  bits : Nat
deriving DecidableEq

def KeyModifiers.noneMod : KeyModifiers := ⟨0⟩

def KeyModifiers.control : KeyModifiers := ⟨2⟩

structure KeyEvent where
  code : KeyCode
  modifiers : KeyModifiers
deriving DecidableEq

/-- `LogListModel::on_key`: Ctrl-n / plain Down move the selection down,
Ctrl-p / plain Up move it up, everything else is ignored. -/
def LogListModel.onKey (m : LogListModel) (key : KeyEvent) : LogListModel :=
  match key.code, key.modifiers with
  | KeyCode.char 'n', ⟨2⟩ => m.nextIfExist
  | KeyCode.down, ⟨0⟩ => m.nextIfExist
  | KeyCode.char 'p', ⟨2⟩ => m.previousIfExist
  | KeyCode.up, ⟨0⟩ => m.previousIfExist
  | _, _ => m

/-- The widget handed to the draw cycle (`LogList`).  The optional `block`
of the source is external chrome (spec §1 excludes it); the embedding takes
the `block = None` path, under which the list area equals the given area. -/
structure LogList where
  items : List LogListItem
  style : Style
  highlight_style : Style

/-
The viewport-windowing algorithm of `StatefulWidget::render`
(mod.rs lines 211-247), split into its four loops.  Iterating
`self.items[i]; i += 1` over a growing index is modelled by walking the
suffix `items.drop i`; an index that leaves the slice (a panic in Rust)
makes the loop return `none`.
-/

/-- The initial forward scan (lines 216-228): starting at the offset,
accumulate item heights while they fit; a partially fitting next item is
still counted into the window, with its contribution truncated through a
`u16` cast of the overflow. -/
def scanAhead (w lh : Nat) : List LogListItem → Nat → Nat → Nat × Nat
  | [], e, h => (e, h)
  | it :: rest, e, h =>
    let ih := it.height w
    if h + ih > lh then
      if h ≠ lh then (e + 1, h + ih - (h + ih - lh) % 2 ^ 16)
      else (e, h)
    else scanAhead w lh rest (e + 1) (h + ih)

/-- The inner pop of the advance loop (lines 234-237): drop items from the
front while the accumulated height exceeds the list height.  `rest` is
`items.drop start`; running past the end of the items is a panic. -/
def popFrontL (w lh : Nat) : List LogListItem → Nat → Nat → Option (Nat × Nat)
  | rest, start, h =>
    if h > lh then
      match rest with
      | [] => none
      | it :: rest' => popFrontL w lh rest' (start + 1) (h - it.height w)
    else some (start, h)

/-- The advance loop (lines 231-238): while the selection is at or past the
window end, append the item at the end and shrink from the front.  `suffix`
is `items.drop e`. -/
def advanceWindow (items : List LogListItem) (w lh sel : Nat) :
    List LogListItem → Nat → Nat → Nat → Option (Nat × Nat × Nat)
  | suffix, start, e, h =>
    if sel ≥ e then
      match suffix with
      | [] => none
      | it :: suf =>
        let h1 := satAdd64 h (it.height w)
        match popFrontL w lh (items.drop start) start h1 with
        | none => none
        | some (s', h2) => advanceWindow items w lh sel suf s' (e + 1) h2
    else some (start, e, h)

/-- The inner pop of the retreat loop (lines 242-245): drop items from the
back while the accumulated height exceeds the list height.  Decrementing
`end` below zero wraps the `usize` far past any real collection, so the
subsequent indexing is a panic, modelled directly as failure. -/
def popBack (items : List LogListItem) (w lh : Nat) :
    Nat → Nat → Option (Nat × Nat)
  | 0, h => if h > lh then none else some (0, h)
  | e + 1, h =>
    if h > lh then
      match items.get? e with
      | none => none
      | some it => popBack items w lh e (h - it.height w)
    else some (e + 1, h)

/-- The retreat loop (lines 239-246): while the selection is before the
window start, prepend the previous item and shrink from the back. -/
def retreatWindow (items : List LogListItem) (w lh sel : Nat) :
    Nat → Nat → Nat → Option (Nat × Nat × Nat)
  | 0, e, h => some (0, e, h)
  | s + 1, e, h =>
    if sel < s + 1 then
      match items.get? s with
      | none => none
      | some it =>
        let h1 := satAdd64 h (it.height w)
        match popBack items w lh e h1 with
        | none => none
        | some (e', h2) => retreatWindow items w lh sel s e' h2
    else some (s + 1, e, h)

/-- The whole windowing phase (lines 211-246): initial scan from the
persisted offset, clamp the selection, then advance or retreat the window.
Returns the final `(start, end)`. -/
def computeWindow (items : List LogListItem) (w lh offset : Nat)
    (sel? : Option Nat) : Option (Nat × Nat) :=
  let p := scanAhead w lh (items.drop offset) offset 0
  let sel := min (sel?.getD 0) (items.length - 1)
  match advanceWindow items w lh sel (items.drop p.1) offset p.1 p.2 with
  | none => none
  | some (s1, e1, h1) =>
    match retreatWindow items w lh sel s1 e1 h1 with
    | none => none
    | some (s2, e2, _) => some (s2, e2)

/-- The drawing phase (lines 248-306): walk the visible items tracking the
running row (`current_height`, a `u16`), stop at the bottom edge, style each
item's clipped sub-rectangle (highlight on top for the selected index), and
write the composed display lines row by row, clipped to the bottom. -/
def drawLoop (style hl : Style) (la : Rect) (sel? : Option Nat) (ft : String) :
    List (Nat × LogListItem) → Nat → Buffer → Buffer
  | [], _, buf => buf
  | (i, it) :: rest, curH, buf =>
    let ihU : Nat := it.height la.width % 2 ^ 16
    let x := la.left
    let y := (la.top + curH) % 2 ^ 16
    let curH' := (curH + ihU) % 2 ^ 16
    if la.bottom ≤ y then buf
    else
      let yih := (y + ihU) % 2 ^ 16
      let clip := if la.bottom > yih then 0 else wsub16 yih la.bottom
      let subArea : Rect := ⟨x, y, la.width, wsub16 ihU clip⟩
      let itemStyle := style.patch it.style
      let buf1 := buf.setStyle subArea itemStyle
      let isSel := (sel?.map (fun s => s == i)).getD false
      let elemX := x
      let buf2 := if isSel then buf1.setStyle subArea hl else buf1
      let maxW := la.width - (elemX - x)
      let lines := runComposer it.content la.width ft
      let buf3 := lines.enum.foldl
        (fun b p =>
          if (y + p.1 % 2 ^ 16) % 2 ^ 16 < la.bottom then
            b.setSpans elemX ((y + p.1 % 2 ^ 16) % 2 ^ 16) p.2 maxW
          else b)
        buf2
      drawLoop style hl la sel? ft rest curH' buf3

/-- `StatefulWidget::render` for `LogList` (lines 191-307), on the
`block = None` path: style the whole area, return early on a degenerate
area or an empty collection, compute the window, persist the new offset and
draw the visible slice.  `none` models a panic. -/
def LogList.render (l : LogList) (area : Rect) (buf : Buffer)
    (state : LogListState) : Option (Buffer × LogListState) :=
  let buf1 := buf.setStyle area l.style
  let listArea := area
  if listArea.width < 1 ∨ listArea.height < 1 then some (buf1, state)
  else if l.items.isEmpty then some (buf1, state)
  else
    let lh := listArea.height
    match computeWindow l.items listArea.width lh state.offset state.selected with
    | none => none
    | some (start, e) =>
      let st' := { state with offset := start }
      let visible := (l.items.enum.drop start).take (wsub64 e start)
      some (drawLoop l.style l.highlight_style listArea st'.selected
              st'.find_text visible 0 buf1, st')

/-
Derived height bookkeeping used to state and prove the window properties.
-/

/-- The height of the item at index `i` at width `w` (0 outside the list). -/
def heightAt (items : List LogListItem) (w i : Nat) : Nat :=
  match items.get? i with
  | some it => it.height w
  | none => 0

/-- The sum of the heights of the `n` items starting at index `a`. -/
def sumFrom (items : List LogListItem) (w : Nat) : Nat → Nat → Nat
  | _, 0 => 0
  | a, n + 1 => heightAt items w a + sumFrom items w (a + 1) n

/-- The top row of the (clamped) selected item as the spec computes it: the
area's top plus the heights of the items from the persisted offset up to the
selected index. -/
def selectedTopRow (items : List LogListItem) (w : Nat) (st : LogListState)
    (top : Nat) : Nat :=
  top + sumFrom items w st.offset (min (st.selected.getD 0) (items.length - 1) - st.offset)

/-
Concrete scenarios used by the individual claims.
-/

def c1Items : List LogListItem :=
  [LogListItem.new "a", LogListItem.new "aaaa", LogListItem.new "a"]

def c1List : LogList := ⟨c1Items, Style.default, Style.default⟩

def c1Area : Rect := ⟨0, 0, 1, 3⟩

def c1Buf : Buffer := ⟨c1Area, List.replicate 3 Cell.default⟩

def c1State : LogListState := ⟨0, some 2, false, ""⟩

def c2Items : List LogListItem := List.replicate 5 (LogListItem.new "a")

def c2List : LogList := ⟨c2Items, Style.default, Style.default⟩

def c2Area : Rect := ⟨0, 0, 1, 3⟩

def c2Buf : Buffer := ⟨c2Area, List.replicate 3 Cell.default⟩

def c4Area : Rect := ⟨0, 0, 1, 1⟩

def c4Buf : Buffer := ⟨c4Area, [Cell.default]⟩

def redStyle : Style := ⟨some 1, none⟩

def c4List : LogList := ⟨[], redStyle, Style.default⟩

def c4State : LogListState := ⟨0, none, false, ""⟩

/-- C1: the claimed selection-visibility property fails on the code.  With
items of heights 1, 4, 1 at width 1 (contents "a", "aaaa", "a"), a viewport
of height 3, offset 0 and `selected = Some 2`, `render` completes and
persists `offset = 1`, and the selected item's top row — computed from the
persisted offset and the heights of items [offset, 2) — is row 4, which is
not within `[area.top, area.bottom) = [0, 3)`: the selected item starts
off-screen (and the drawing loop never reaches it).  The truncated
accumulated height of the partially fitting second item desynchronises the
sliding window from the true row sums. -/
theorem render_c1_selected_off_screen :
    ((c1List.render c1Area c1Buf c1State).map
        (fun r => (r.2.offset, selectedTopRow c1Items c1Area.width r.2 c1Area.y,
          decide (selectedTopRow c1Items c1Area.width r.2 c1Area.y < c1Area.bottom))))
      = some (1, 4, false) := by decide

/-- C2: the two concrete scroll-window examples of the spec.  Five items of
height 1 at the render width (content "a" at width 1), viewport height 3:
from `offset = 0` selecting index 4 slides the window to `offset = 2`, and
from `offset = 2` selecting index 0 slides it back to `offset = 0`. -/
theorem render_scroll_window_examples :
    ((c2List.render c2Area c2Buf ⟨0, some 4, false, ""⟩).map fun r => r.2.offset)
        = some 2
  ∧ ((c2List.render c2Area c2Buf ⟨2, some 0, false, ""⟩).map fun r => r.2.offset)
        = some 0 :=
  ⟨by decide, by decide⟩

/-- C3: the claimed guard does not exist in the code.  On the state produced
by `new()` (empty items, `selected = Some 0`) `next_if_exist` computes
`items.len() - 1` as a wrapping `usize` subtraction (`0 - 1 = 2^64 - 1` on
release builds; debug builds panic), the guard `0 < 2^64 - 1` passes, and the
selection moves to `Some 1` instead of being left unchanged. -/
theorem next_if_exist_empty_underflow :
    LogListModel.new.items = []
  ∧ LogListModel.new.state.selected = some 0
  ∧ LogListModel.new.state.offset = 0
  ∧ LogListModel.new.nextIfExist.state.selected = some 1 := by decide

/-- C4 (counterexample): the claim that nothing is restyled on an early-out
is false.  With an empty item collection, a 1-by-1 area and a widget style
with a set foreground, `render` still restyles the buffer (the unconditional
`buf.set_style(area, self.style)` runs before the early-out checks), so the
resulting buffer differs from the input buffer. -/
theorem render_empty_restyles_buffer :
    ((c4List.render c4Area c4Buf c4State).map Prod.fst) ≠ some c4Buf := by decide

/-- C4 (amended): on every early-out path (degenerate list area or empty
item collection) `render` leaves the `ListState` completely unchanged and
writes no item content, but the whole area has already been styled with the
widget's base style: the result is exactly the input buffer with
`set_style(area, style)` applied, paired with the untouched state. -/
theorem render_early_out_amended (l : LogList) (area : Rect) (buf : Buffer)
    (st : LogListState)
    (h : area.width < 1 ∨ area.height < 1 ∨ l.items = []) :
    l.render area buf st = some (buf.setStyle area l.style, st) := by
  by_cases h1 : area.width < 1 ∨ area.height < 1
  · rcases h1 with h1 | h1
    · simp [LogList.render, Nat.lt_one_iff.mp h1]
    · simp [LogList.render, Nat.lt_one_iff.mp h1]
  · rcases h with h | h | h
    · exact absurd (Or.inl h) h1
    · exact absurd (Or.inr h) h1
    · simp [LogList.render, h1, h]

/-- Witness for the amended C4 theorem at a concrete early-out input. -/
theorem render_early_out_amended_witness :
    (c4Area.width < 1 ∨ c4Area.height < 1 ∨ c4List.items = [])
  ∧ c4List.render c4Area c4Buf c4State
      = some (c4Buf.setStyle c4Area c4List.style, c4State) :=
  ⟨Or.inr (Or.inr rfl),
   render_early_out_amended c4List c4Area c4Buf c4State (Or.inr (Or.inr rfl))⟩

/-- C7: clearing the selection resets the scroll, `unselect` is
`select(None)`, and `select(Some i)` stores any index without a bounds
check. -/
theorem select_unselect_spec (st : LogListState) :
    ((st.select none).selected = none ∧ (st.select none).offset = 0)
  ∧ (∀ i : Nat, (st.select (some i)).selected = some i)
  ∧ (∀ m : LogListModel, m.unselect.state = m.state.select none) :=
  ⟨⟨rfl, rfl⟩, fun _ => rfl, fun _ => rfl⟩

/-- C8: after `clear()` the collection is empty, the offset is 0 and the
selection is `Some 0`. -/
theorem clear_resets (m : LogListModel) :
    m.clear.items = [] ∧ m.clear.state.offset = 0
      ∧ m.clear.state.selected = some 0 :=
  ⟨rfl, rfl, rfl⟩

/-- C10: for every item and width at least 1, `height` equals the number of
display lines `run_composer` yields for the empty query, and the composed
line count is independent of the query. -/
theorem height_is_composer_line_count (it : LogListItem) (w : Nat)
    (hw : 1 ≤ w) :
    it.height w = (runComposer it.content w "").length
  ∧ ∀ q : String, (runComposer it.content w q).length
      = (runComposer it.content w "").length := by
  refine ⟨rfl, fun q => ?_⟩
  simp [runComposer]

/-- Witness for the C10 theorem at a concrete item and width. -/
theorem height_is_composer_line_count_witness :
    1 ≤ 1
  ∧ ((LogListItem.new "a").height 1
        = (runComposer (LogListItem.new "a").content 1 "").length
    ∧ ∀ q : String, (runComposer (LogListItem.new "a").content 1 q).length
        = (runComposer (LogListItem.new "a").content 1 "").length) :=
  ⟨Nat.le.refl, height_is_composer_line_count (LogListItem.new "a") 1 Nat.le.refl⟩

/-- C9: the key-to-action mapping is exactly the four-entry table of the
source `match`: Ctrl-n or a plain Down arrow runs `next_if_exist`, Ctrl-p or
a plain Up arrow runs `previous_if_exist`, and every other key event leaves
the whole model untouched. -/
theorem on_key_dispatch (m : LogListModel) (k : KeyEvent) :
    m.onKey k =
      if (k.code = KeyCode.char 'n' ∧ k.modifiers = KeyModifiers.control)
          ∨ (k.code = KeyCode.down ∧ k.modifiers = KeyModifiers.noneMod) then
        m.nextIfExist
      else if (k.code = KeyCode.char 'p' ∧ k.modifiers = KeyModifiers.control)
          ∨ (k.code = KeyCode.up ∧ k.modifiers = KeyModifiers.noneMod) then
        m.previousIfExist
      else m := by
  rcases k with ⟨code, ⟨bits⟩⟩
  simp only [LogListModel.onKey, KeyModifiers.control, KeyModifiers.noneMod]
  split
  · simp_all
  · simp_all
  · simp_all
  · simp_all
  · rename_i a b c hn hd hp hu
    have hA : ¬((a = KeyCode.char 'n' ∧ (⟨bits⟩ : KeyModifiers) = ⟨2⟩)
        ∨ (a = KeyCode.down ∧ (⟨bits⟩ : KeyModifiers) = ⟨0⟩)) := by
      rintro (⟨hc, hb⟩ | ⟨hc, hb⟩)
      · exact hn hc hb
      · exact hd hc hb
    have hB : ¬((a = KeyCode.char 'p' ∧ (⟨bits⟩ : KeyModifiers) = ⟨2⟩)
        ∨ (a = KeyCode.up ∧ (⟨bits⟩ : KeyModifiers) = ⟨0⟩)) := by
      rintro (⟨hc, hb⟩ | ⟨hc, hb⟩)
      · exact hp hc hb
      · exact hu hc hb
    rw [if_neg hA, if_neg hB]

/-
Navigation sequences for the bounds invariant of C6.
-/

/-- One navigation call: move the selection down or up. -/
inductive NavOp where
  | next
  | prev
deriving DecidableEq

def navStep (m : LogListModel) : NavOp → LogListModel
  | NavOp.next => m.nextIfExist
  | NavOp.prev => m.previousIfExist

/-- A finite sequence of `next_if_exist` / `previous_if_exist` calls. -/
def applyNav (m : LogListModel) (ops : List NavOp) : LogListModel :=
  ops.foldl navStep m

theorem wsub64_one (n : Nat) (h1 : 1 ≤ n) (h2 : n < 2 ^ 64) :
    wsub64 n 1 = n - 1 := by
  unfold wsub64
  omega

theorem navStep_items (m : LogListModel) (op : NavOp) :
    (navStep m op).items = m.items := by
  cases op
  case next =>
    simp only [navStep, LogListModel.nextIfExist]
    cases m.state.selected with
    | none => rfl
    | some i => by_cases h : i < wsub64 m.items.length 1 <;> simp [h]
  case prev =>
    simp only [navStep, LogListModel.previousIfExist]
    cases m.state.selected with
    | none => rfl
    | some i => by_cases h : 0 < i <;> simp [h]

theorem navStep_none (m : LogListModel) (op : NavOp)
    (h : m.state.selected = none) : (navStep m op).state.selected = none := by
  cases op <;>
    simp only [navStep, LogListModel.nextIfExist, LogListModel.previousIfExist,
      h]

theorem navStep_selected_bound (m : LogListModel) (op : NavOp)
    (hlen : m.items.length < 2 ^ 64) (i : Nat)
    (hsel : m.state.selected = some i) (hi : i < m.items.length) :
    ∃ j, (navStep m op).state.selected = some j ∧ j < m.items.length := by
  cases op
  case next =>
    simp only [navStep, LogListModel.nextIfExist, hsel]
    rw [wsub64_one _ (by omega) hlen]
    by_cases hlt : i < m.items.length - 1
    · rw [if_pos hlt]
      exact ⟨i + 1, rfl, by omega⟩
    · rw [if_neg hlt]
      exact ⟨i, hsel, hi⟩
  case prev =>
    simp only [navStep, LogListModel.previousIfExist, hsel]
    by_cases hlt : 0 < i
    · rw [if_pos hlt]
      exact ⟨i - 1, rfl, by omega⟩
    · rw [if_neg hlt]
      exact ⟨i, hsel, hi⟩

theorem applyNav_items (ops : List NavOp) :
    ∀ m : LogListModel, (applyNav m ops).items = m.items := by
  induction ops with
  | nil => intro m; rfl
  | cons op ops ih =>
    intro m
    have h1 : applyNav m (op :: ops) = applyNav (navStep m op) ops := rfl
    rw [h1, ih (navStep m op), navStep_items]

theorem applyNav_selected_inv (ops : List NavOp) :
    ∀ m : LogListModel, m.items.length < 2 ^ 64 →
      (m.state.selected = none → (applyNav m ops).state.selected = none)
    ∧ (∀ i, m.state.selected = some i → i < m.items.length →
        ∃ j, (applyNav m ops).state.selected = some j ∧ j < m.items.length) := by
  induction ops with
  | nil => intro m _; exact ⟨fun h => h, fun i hs hi => ⟨i, hs, hi⟩⟩
  | cons op ops ih =>
    intro m hlen
    have hitems := navStep_items m op
    have hstep : applyNav m (op :: ops) = applyNav (navStep m op) ops := rfl
    have hlen' : (navStep m op).items.length < 2 ^ 64 := by
      rw [hitems]; exact hlen
    have ihm := ih (navStep m op) hlen'
    constructor
    · intro hnone
      rw [hstep]
      exact ihm.1 (navStep_none m op hnone)
    · intro i hs hi
      obtain ⟨j, hj, hjlt⟩ := navStep_selected_bound m op hlen i hs hi
      have hjlt' : j < (navStep m op).items.length := by rw [hitems]; exact hjlt
      obtain ⟨j2, hj2, hj2lt⟩ := ihm.2 j hj hjlt'
      rw [hitems] at hj2lt
      exact ⟨j2, by rw [hstep]; exact hj2, hj2lt⟩

/-- C6: over any finite sequence of `next_if_exist` / `previous_if_exist`
calls the selection stays `none` when it started `none`, and stays a valid
index in `[0, len - 1]` when it started as one; moreover `next_if_exist` is
a no-op at the last item and `previous_if_exist` is a no-op at index 0.
The length bound reflects that a Rust `Vec` length is a `usize`. -/
theorem navigation_bounds (m : LogListModel) (ops : List NavOp)
    (hlen : m.items.length < 2 ^ 64) :
    (m.state.selected = none → (applyNav m ops).state.selected = none)
  ∧ (∀ i, m.state.selected = some i → i < m.items.length →
      ∃ j, (applyNav m ops).state.selected = some j
        ∧ j < (applyNav m ops).items.length)
  ∧ (∀ i, m.state.selected = some i → i + 1 = m.items.length →
      m.nextIfExist = m)
  ∧ (m.state.selected = some 0 → m.previousIfExist = m) := by
  have hinv := applyNav_selected_inv ops m hlen
  refine ⟨hinv.1, ?_, ?_, ?_⟩
  · intro i hs hi
    obtain ⟨j, hj, hjlt⟩ := hinv.2 i hs hi
    exact ⟨j, hj, by rw [applyNav_items]; exact hjlt⟩
  · intro i hs hlast
    simp only [LogListModel.nextIfExist, hs]
    rw [wsub64_one _ (by omega) hlen, if_neg (by omega)]
  · intro hs
    simp only [LogListModel.previousIfExist, hs]
    rw [if_neg (by omega)]

/-- Witness for the C6 theorem at a concrete model and call sequence. -/
theorem navigation_bounds_witness :
    (LogListModel.mk ⟨0, some 0, false, ""⟩
        [LogListItem.new "a", LogListItem.new "b"]).items.length < 2 ^ 64
  ∧ (((LogListModel.mk ⟨0, some 0, false, ""⟩
        [LogListItem.new "a", LogListItem.new "b"]).state.selected = none →
      (applyNav (LogListModel.mk ⟨0, some 0, false, ""⟩
        [LogListItem.new "a", LogListItem.new "b"])
        [NavOp.next, NavOp.next, NavOp.prev]).state.selected = none)
  ∧ (∀ i, (LogListModel.mk ⟨0, some 0, false, ""⟩
        [LogListItem.new "a", LogListItem.new "b"]).state.selected = some i →
      i < (LogListModel.mk ⟨0, some 0, false, ""⟩
        [LogListItem.new "a", LogListItem.new "b"]).items.length →
      ∃ j, (applyNav (LogListModel.mk ⟨0, some 0, false, ""⟩
          [LogListItem.new "a", LogListItem.new "b"])
          [NavOp.next, NavOp.next, NavOp.prev]).state.selected = some j
        ∧ j < (applyNav (LogListModel.mk ⟨0, some 0, false, ""⟩
          [LogListItem.new "a", LogListItem.new "b"])
          [NavOp.next, NavOp.next, NavOp.prev]).items.length)
  ∧ (∀ i, (LogListModel.mk ⟨0, some 0, false, ""⟩
        [LogListItem.new "a", LogListItem.new "b"]).state.selected = some i →
      i + 1 = (LogListModel.mk ⟨0, some 0, false, ""⟩
        [LogListItem.new "a", LogListItem.new "b"]).items.length →
      (LogListModel.mk ⟨0, some 0, false, ""⟩
        [LogListItem.new "a", LogListItem.new "b"]).nextIfExist
        = LogListModel.mk ⟨0, some 0, false, ""⟩
            [LogListItem.new "a", LogListItem.new "b"])
  ∧ ((LogListModel.mk ⟨0, some 0, false, ""⟩
        [LogListItem.new "a", LogListItem.new "b"]).state.selected = some 0 →
      (LogListModel.mk ⟨0, some 0, false, ""⟩
        [LogListItem.new "a", LogListItem.new "b"]).previousIfExist
        = LogListModel.mk ⟨0, some 0, false, ""⟩
            [LogListItem.new "a", LogListItem.new "b"])) :=
  ⟨by decide,
   navigation_bounds
     (LogListModel.mk ⟨0, some 0, false, ""⟩
       [LogListItem.new "a", LogListItem.new "b"])
     [NavOp.next, NavOp.next, NavOp.prev] (by decide)⟩

/-
Safety of the windowing phase (claim C5): under the render preconditions the
four loops only ever index items inside `[0, len - 1]`.  The invariant is
that the tracked accumulated height never exceeds the true sum of the
heights of the window `[start, end)` — the step-2 truncation only lowers the
tracked value and the saturating subtractions keep it lowered — so a pop is
only ever demanded while the window is non-empty.
-/

theorem sumFrom_succ_right (items : List LogListItem) (w : Nat) :
    ∀ (n a : Nat), sumFrom items w a (n + 1)
      = sumFrom items w a n + heightAt items w (a + n) := by
  intro n
  induction n with
  | zero => intro a; simp [sumFrom]
  | succ k ih =>
    intro a
    have h1 : sumFrom items w a (k + 1 + 1)
        = heightAt items w a + sumFrom items w (a + 1) (k + 1) := rfl
    have h2 : sumFrom items w a (k + 1)
        = heightAt items w a + sumFrom items w (a + 1) k := rfl
    rw [h1, ih (a + 1), h2]
    have : a + 1 + k = a + (k + 1) := by omega
    rw [this]
    omega

theorem drop_cons_facts (items : List LogListItem) (e : Nat)
    (it : LogListItem) (suf : List LogListItem)
    (h : items.drop e = it :: suf) :
    e < items.length ∧ heightAt items w e = it.height w
      ∧ items.drop (e + 1) = suf := by
  have hlen : e < items.length := by
    by_contra hle
    rw [List.drop_eq_nil_iff.mpr (by omega)] at h
    cases h
  have hget : items.get? e = some it := by
    have h0 : (items.drop e).get? 0 = some it := by rw [h]; rfl
    rw [show items.get? e = (items.drop e).get? 0 by
      simp [List.get?_eq_getElem?, List.getElem?_drop]] at *
    exact h0
  refine ⟨hlen, ?_, ?_⟩
  · unfold heightAt
    rw [hget]
  · have := congrArg (List.drop 1) h
    rw [List.drop_drop 1 e items] at this
    exact this

theorem scanAhead_ok (items : List LogListItem) (w lh offset : Nat) :
    ∀ (rest : List LogListItem) (e h : Nat),
      rest = items.drop e → offset ≤ e → e ≤ items.length →
      h ≤ sumFrom items w offset (e - offset) →
      offset ≤ (scanAhead w lh rest e h).1
      ∧ (scanAhead w lh rest e h).1 ≤ items.length
      ∧ (scanAhead w lh rest e h).2
          ≤ sumFrom items w offset ((scanAhead w lh rest e h).1 - offset) := by
  intro rest
  induction rest with
  | nil =>
    intro e h _ hoe hel hh
    exact ⟨hoe, hel, hh⟩
  | cons it rest ih =>
    intro e h hrest hoe hel hh
    obtain ⟨helt, hht, hdrop⟩ := drop_cons_facts items e it rest hrest.symm
    have hpeel : sumFrom items w offset (e + 1 - offset)
        = sumFrom items w offset (e - offset) + heightAt items w e := by
      have h1 : e + 1 - offset = (e - offset) + 1 := by omega
      rw [h1, sumFrom_succ_right]
      have h2 : offset + (e - offset) = e := by omega
      rw [h2]
    simp only [scanAhead]
    by_cases hc1 : h + it.height w > lh
    · rw [if_pos hc1]
      by_cases hc2 : h = lh
      · rw [if_neg (by exact fun hne => hne hc2)]
        exact ⟨hoe, hel, hh⟩
      · rw [if_pos hc2]
        refine ⟨by omega, by omega, ?_⟩
        rw [hpeel, hht]
        omega
    · rw [if_neg hc1]
      exact ih (e + 1) (h + it.height w) hdrop.symm (by omega) (by omega)
        (by rw [hpeel, hht]; omega)

theorem popFrontL_ok (items : List LogListItem) (w lh eG : Nat) :
    ∀ (rest : List LogListItem) (start h : Nat),
      rest = items.drop start → start ≤ eG → eG ≤ items.length →
      h ≤ sumFrom items w start (eG - start) →
      ∃ s' h', popFrontL w lh rest start h = some (s', h')
        ∧ s' ≤ eG ∧ h' ≤ sumFrom items w s' (eG - s') := by
  intro rest
  induction rest with
  | nil =>
    intro start h hrest hse hel hh
    have hstart : items.length ≤ start := List.drop_eq_nil_iff.mp hrest.symm
    have hse' : start = eG := by omega
    have hzero : h = 0 := by
      rw [hse'] at hh
      simpa [sumFrom] using hh
    simp only [popFrontL]
    rw [if_neg (by omega)]
    exact ⟨start, h, rfl, by omega, hh⟩
  | cons it rest ih =>
    intro start h hrest hse hel hh
    obtain ⟨hlt, hht, hdrop⟩ := drop_cons_facts items start it rest hrest.symm
    simp only [popFrontL]
    by_cases hc : h > lh
    · rw [if_pos hc]
      have hslt : start < eG := by
        by_contra hge
        have : start = eG := by omega
        rw [this] at hh
        simp [sumFrom] at hh
        omega
      have hpeel : sumFrom items w start (eG - start)
          = heightAt items w start + sumFrom items w (start + 1) (eG - (start + 1)) := by
        have h1 : eG - start = (eG - (start + 1)) + 1 := by omega
        rw [h1]
        rfl
      exact ih (start + 1) (h - it.height w) hdrop.symm (by omega) hel
        (by rw [hpeel, hht] at hh; omega)
    · rw [if_neg hc]
      exact ⟨start, h, rfl, hse, hh⟩

theorem advanceWindow_ok (items : List LogListItem) (w lh sel : Nat)
    (hsel : sel < items.length) :
    ∀ (suffix : List LogListItem) (start e h : Nat),
      suffix = items.drop e → start ≤ e → e ≤ items.length →
      h ≤ sumFrom items w start (e - start) →
      ∃ s' e' h', advanceWindow items w lh sel suffix start e h
          = some (s', e', h')
        ∧ s' ≤ e' ∧ e' ≤ items.length
        ∧ h' ≤ sumFrom items w s' (e' - s') := by
  intro suffix
  induction suffix with
  | nil =>
    intro start e h hsuf hse hel hh
    have he : items.length ≤ e := List.drop_eq_nil_iff.mp hsuf.symm
    simp only [advanceWindow]
    rw [if_neg (by omega)]
    exact ⟨start, e, h, rfl, hse, hel, hh⟩
  | cons it suf ih =>
    intro start e h hsuf hse hel hh
    obtain ⟨helt, hht, hdrop⟩ := drop_cons_facts items e it suf hsuf.symm
    simp only [advanceWindow]
    by_cases hc : sel ≥ e
    · rw [if_pos hc]
      have hpeel : sumFrom items w start (e + 1 - start)
          = sumFrom items w start (e - start) + heightAt items w e := by
        have h1 : e + 1 - start = (e - start) + 1 := by omega
        rw [h1, sumFrom_succ_right]
        have h2 : start + (e - start) = e := by omega
        rw [h2]
      have hh1 : satAdd64 h (it.height w)
          ≤ sumFrom items w start (e + 1 - start) := by
        have : satAdd64 h (it.height w) ≤ h + it.height w :=
          Nat.min_le_left _ _
        rw [hpeel, hht]
        omega
      obtain ⟨s1, h2', hpop, hs1, hh2⟩ :=
        popFrontL_ok items w lh (e + 1) (items.drop start) start
          (satAdd64 h (it.height w)) rfl (by omega) (by omega) hh1
      rw [hpop]
      exact ih s1 (e + 1) h2' hdrop.symm hs1 (by omega) hh2
    · rw [if_neg hc]
      exact ⟨start, e, h, rfl, hse, hel, hh⟩

theorem popBack_ok (items : List LogListItem) (w lh sG : Nat) :
    ∀ (e h : Nat), sG ≤ e → e ≤ items.length →
      h ≤ sumFrom items w sG (e - sG) →
      ∃ e' h', popBack items w lh e h = some (e', h')
        ∧ sG ≤ e' ∧ e' ≤ e ∧ h' ≤ sumFrom items w sG (e' - sG) := by
  intro e
  induction e with
  | zero =>
    intro h hse hel hh
    have hzero : h = 0 := by simpa [sumFrom] using hh
    simp only [popBack]
    rw [if_neg (by omega)]
    exact ⟨0, h, rfl, hse, Nat.le.refl, hh⟩
  | succ e ih =>
    intro h hse hel hh
    simp only [popBack]
    by_cases hc : h > lh
    · rw [if_pos hc]
      have hslt : sG < e + 1 := by
        by_contra hge
        have : sG = e + 1 := by omega
        rw [this] at hh
        simp [sumFrom] at hh
        omega
      have hget : items.get? e = some (items.get ⟨e, by omega⟩) :=
        List.get?_eq_get (by omega)
      rw [hget]
      have hht : heightAt items w e = (items.get ⟨e, by omega⟩).height w := by
        unfold heightAt
        rw [hget]
      have hpeel : sumFrom items w sG (e + 1 - sG)
          = sumFrom items w sG (e - sG) + heightAt items w e := by
        have h1 : e + 1 - sG = (e - sG) + 1 := by omega
        rw [h1, sumFrom_succ_right]
        have h2 : sG + (e - sG) = e := by omega
        rw [h2]
      obtain ⟨e', h', heq, ha, hb, hc'⟩ :=
        ih (h - (items.get ⟨e, by omega⟩).height w) (by omega) (by omega)
          (by rw [hpeel, hht] at hh; omega)
      exact ⟨e', h', heq, ha, by omega, hc'⟩
    · rw [if_neg hc]
      exact ⟨e + 1, h, rfl, hse, Nat.le.refl, hh⟩

theorem retreatWindow_ok (items : List LogListItem) (w lh sel : Nat) :
    ∀ (start e h : Nat), start ≤ e → e ≤ items.length →
      h ≤ sumFrom items w start (e - start) →
      ∃ s' e' h', retreatWindow items w lh sel start e h = some (s', e', h') := by
  intro start
  induction start with
  | zero =>
    intro e h _ _ _
    exact ⟨0, e, h, rfl⟩
  | succ s ih =>
    intro e h hse hel hh
    simp only [retreatWindow]
    by_cases hc : sel < s + 1
    · rw [if_pos hc]
      obtain ⟨it, hget⟩ : ∃ it, items.get? s = some it :=
        ⟨items.get ⟨s, by omega⟩, List.get?_eq_get (by omega)⟩
      rw [hget]
      have hht : heightAt items w s = it.height w := by
        unfold heightAt
        rw [hget]
      have hpeel : sumFrom items w s (e - s)
          = heightAt items w s + sumFrom items w (s + 1) (e - (s + 1)) := by
        have h1 : e - s = (e - (s + 1)) + 1 := by omega
        rw [h1]
        rfl
      have hh1 : satAdd64 h (it.height w) ≤ sumFrom items w s (e - s) := by
        have hmin : satAdd64 h (it.height w) ≤ h + it.height w :=
          Nat.min_le_left _ _
        rw [hpeel, hht]
        omega
      obtain ⟨e', h2', hpop, ha, hb, hc'⟩ :=
        popBack_ok items w lh s e (satAdd64 h (it.height w))
          (by omega) hel hh1
      dsimp only
      rw [hpop]
      exact ih e' h2' ha (by omega) hc'
    · rw [if_neg hc]
      exact ⟨s + 1, e, h, rfl⟩

theorem computeWindow_ok (items : List LogListItem) (w lh offset : Nat)
    (sel? : Option Nat) (hne : items ≠ []) (hoff : offset ≤ items.length) :
    ∃ p, computeWindow items w lh offset sel? = some p := by
  have hpos : 0 < items.length := List.length_pos.mpr hne
  have hsel : min (sel?.getD 0) (items.length - 1) < items.length := by omega
  obtain ⟨h1, h2, h3⟩ := scanAhead_ok items w lh offset (items.drop offset)
    offset 0 rfl Nat.le.refl hoff (Nat.zero_le _)
  obtain ⟨s1, e1, hh1, hadv, hse, hel, hhh⟩ :=
    advanceWindow_ok items w lh (min (sel?.getD 0) (items.length - 1)) hsel
      (items.drop (scanAhead w lh (items.drop offset) offset 0).1) offset
      (scanAhead w lh (items.drop offset) offset 0).1
      (scanAhead w lh (items.drop offset) offset 0).2 rfl h1 h2 h3
  obtain ⟨s2, e2, hh2, hret⟩ :=
    retreatWindow_ok items w lh (min (sel?.getD 0) (items.length - 1))
      s1 e1 hh1 hse hel hhh
  refine ⟨(s2, e2), ?_⟩
  unfold computeWindow
  dsimp only
  rw [hadv]
  dsimp only
  rw [hret]

/-- C5: under the render preconditions — non-empty items, a positive-area
rectangle and a persisted offset of at most the collection length — the
windowing phase applies the clamped selection `min (selected.getD 0)
(len - 1)` (by construction, see `computeWindow`) and `render` completes
without ever indexing an item outside `[0, len - 1]`: no loop runs off
either end of the collection (a `none` result models exactly such a
panic). -/
theorem render_in_bounds (l : LogList) (area : Rect) (buf : Buffer)
    (st : LogListState) (hne : l.items ≠ []) (hw : 1 ≤ area.width)
    (hh : 1 ≤ area.height) (hoff : st.offset ≤ l.items.length) :
    (l.render area buf st).isSome = true := by
  have hc1 : ¬(area.width < 1 ∨ area.height < 1) := by omega
  have hc2 : l.items.isEmpty = false := by
    cases hl : l.items
    · exact absurd hl hne
    · rfl
  obtain ⟨p, hp⟩ := computeWindow_ok l.items area.width area.height st.offset
    st.selected hne hoff
  rcases p with ⟨s, e⟩
  simp [LogList.render, hc1, hc2, hp]
  split <;> rfl

/-- Witness for the C5 theorem at a concrete render call. -/
theorem render_in_bounds_witness :
    (c2List.items ≠ [] ∧ 1 ≤ c2Area.width ∧ 1 ≤ c2Area.height
      ∧ (⟨0, some 4, false, ""⟩ : LogListState).offset ≤ c2List.items.length)
  ∧ (c2List.render c2Area c2Buf ⟨0, some 4, false, ""⟩).isSome = true :=
  ⟨⟨by decide, by decide, by decide, by decide⟩,
   render_in_bounds c2List c2Area c2Buf ⟨0, some 4, false, ""⟩
     (by decide) (by decide) (by decide) (by decide)⟩
